import Mathlib

/-!
Verification of the report-tree core of `testplan` against its design
specification.  The embedding follows `src/testplan/common/report/base.py`:
the classes `Report` and `ReportGroup` (plus the leaf subclass
`TestCaseReport` referenced by the repository's tests, modelled from the
spec) become one tree type tagged by a `Kind`; Python in-place mutation
becomes explicit state passing, and an operation that can raise returns its
final state paired with an optional exception, so that partial mutation
before a raise is observable.
-/

set_option maxHeartbeats 1000000

/-- Python exception classes that the report core can raise. -/
inductive PyErr : Type where
  /-- `AttributeError`: raised by `_check_report` on a `uid` mismatch, and by
  attribute access such as `child.uid` on an object without that attribute. -/
  | attributeError : PyErr
  /-- `TypeError`: raised by `_check_report` on a type mismatch and by
  `ReportGroup.append` for non-`Report` items. -/
  | typeError : PyErr
  /-- `ValueError`: raised by `build_index` on duplicate child uids and by
  `ReportGroup.append` on a duplicate uid. -/
  | valueError : PyErr
  /-- `KeyError`: raised by `get_by_uid` on a missing uid. -/
  | keyError : PyErr
  /-- `MergeError`: raised by `merge_children` for an unknown child uid. -/
  | mergeError : PyErr
deriving DecidableEq, Repr

/-- The concrete Python class of a report object.  `_check_report` requires an
exact type match (`type(report) != type(self)`), so the class is part of the
state.  `base` is `Report`, `group` is `ReportGroup`; `tcase` models the leaf
subclass `TestCaseReport` (from `testplan/report/testing.py`, outside
`src/`), whose merge the spec's end-to-end scenario depends on. -/
inductive Kind : Type where
  | base : Kind
  | group : Kind
  | tcase : Kind
deriving DecidableEq, Repr

/-- A log record: `Report.logs` holds dicts each carrying a `'uid'` key used
for deduplication, plus an opaque payload (`msg` stands for the rest of the
record). -/
structure LogRec where
  uid : Nat
  msg : Nat
deriving DecidableEq, Repr

/-- The fields of a Python report object (`Report.__init__`).  `name` and
`description` are opaque display data, modelled as numbers; `entries` is the
heterogeneous list of payloads and/or child reports; `logs` is the ordered
log buffer.  The `logger` attribute carries no report state and is omitted.
`E` is the entry type, abstracted so `Entry` below can nest reports. -/
structure ReportF (E : Type) where
  kind : Kind
  name : Nat
  description : Option Nat
  uid : Nat
  entries : List E
  logs : List LogRec

/-- One element of `Report.entries`: either an opaque assertion payload (a
dict-like record with no `uid` attribute; `objId` models the Python object
identity, so deep-copying yields an equal payload with a different `objId`)
or a nested report object. -/
inductive Entry : Type where
  | payload (objId : Nat) (val : Nat) : Entry
  | node (r : ReportF Entry) : Entry

/-- A report object (Python `Report` / `ReportGroup` / `TestCaseReport`,
distinguished by `kind`). -/
abbrev Report := ReportF Entry

/-!  ## Log merging (`Report.merge`, lines 131-146)

The source reads

```
log_ids = (rec['uid'] for rec in self.logs)
self.logs += [rec for rec in report.logs if rec['uid'] not in log_ids]
```

`log_ids` is a generator, not a set: every `in` test consumes it.  A
membership test pulls items until a match (leaving the remainder for the
next test) or until exhaustion (after which every later test is vacuously
false).  `genMember` models one such test, returning the verdict and the
remaining generator. -/

/-- Python `x in gen` for a generator `gen`: scan until a match (consuming up
to and including it) or until the generator is exhausted. -/
def genMember (x : Nat) : List Nat → Bool × List Nat
  | [] => (false, [])
  | y :: ys => if y = x then (true, ys) else genMember x ys

/-- The list comprehension `[rec for rec in report.logs if rec['uid'] not in
log_ids]`, with `gen` the current state of the `log_ids` generator: the
records of the incoming report that survive the (stateful) membership
filter. -/
def mergeLogsAux (gen : List Nat) : List LogRec → List LogRec
  | [] => []
  | r :: rest =>
    let p := genMember r.uid gen
    if p.1 then mergeLogsAux p.2 rest else r :: mergeLogsAux p.2 rest

/-- `self.logs += [...]` of `Report.merge`: the merged log buffer. -/
def mergeLogs (selfLogs otherLogs : List LogRec) : List LogRec :=
  selfLogs ++ mergeLogsAux (selfLogs.map LogRec.uid) otherLogs

example : mergeLogs [⟨1, 0⟩, ⟨2, 0⟩] [⟨1, 5⟩, ⟨3, 0⟩] =
    [⟨1, 0⟩, ⟨2, 0⟩, ⟨3, 0⟩] := by decide

example : mergeLogs [⟨1, 0⟩, ⟨2, 0⟩] [⟨3, 0⟩, ⟨1, 5⟩] =
    [⟨1, 0⟩, ⟨2, 0⟩, ⟨3, 0⟩, ⟨1, 5⟩] := by decide

/-!  ## Merge (`Report.merge`, `ReportGroup.merge_children`, `ReportGroup.merge`)

Python merge mutates `self` in place and raises on failure; here every merge
returns the final state of `self` together with the exception, if any, so a
raise after partial mutation is faithfully represented. -/

/-- `Report._check_report` (lines 114-129): first the `uid` comparison
(raising `AttributeError`), then the exact-type comparison (raising
`TypeError`). -/
def checkReport (self other : Report) : Option PyErr :=
  if other.uid ≠ self.uid then some .attributeError
  else if other.kind ≠ self.kind then some .typeError
  else none

/-- Lookup of a child report by uid in an entries list (the backing of
`ReportGroup.get_by_uid` via `self._index`; the dict `_index` maps each child
uid to the child, so on index built from distinct child uids this is the
unique match — modelled as the first match). -/
def findChild (es : List Entry) (u : Nat) : Option Report :=
  match es with
  | [] => none
  | .payload _ _ :: rest => findChild rest u
  | .node c :: rest => if c.uid = u then some c else findChild rest u

/-- In-place mutation of the child found by `get_by_uid`: the entries list
with the first uid-`u` child replaced by its merged state. -/
def replaceFirstChild (es : List Entry) (u : Nat) (c' : Report) : List Entry :=
  match es with
  | [] => []
  | .payload i v :: rest => .payload i v :: replaceFirstChild rest u c'
  | .node c :: rest =>
    if c.uid = u then .node c' :: rest
    else .node c :: replaceFirstChild rest u c'

/-- The log-merging tail of `Report.merge` (lines 143-146), applied after
`_check_report` succeeded. -/
def baseMergeLogs (self other : Report) : Report :=
  { self with logs := mergeLogs self.logs other.logs }

/-- Size bookkeeping for recursion through the nested tree type. -/
theorem sizeOf_entries_lt (r : Report) : sizeOf r.entries < sizeOf r := by
  cases r with
  | mk k n d u es ls => simp [ReportF.mk.sizeOf_spec]; omega

/-- Size bookkeeping for recursion into a child report. -/
theorem sizeOf_node_child_lt (c : Report) (rest : List Entry) :
    sizeOf c < sizeOf (Entry.node c :: rest) := by
  simp [Entry.node.sizeOf_spec]; omega

mutual

/-- Python `merge` with dynamic dispatch on `type(self)`:
`ReportGroup.merge` (lines 245-248) first runs `merge_children` and only
then the inherited `Report.merge`, which performs `_check_report` and the
log merge; `Report.merge` (lines 131-146) checks and merges logs only.  The
`tcase` branch is `TestCaseReport.merge` — modelled from the spec: the class
lives in `testplan/report/testing.py`, outside `src/`, and the spec's
end-to-end scenario (§8) requires that after merging, the case's `entries`
equal the partial report's `entries`; so it is the base merge followed by
adopting `other`'s entries.  The `strict` flag is threaded but unused, as in
the source.  The returned report is the state of `self` when the call
returns or raises; the `Option PyErr` is the raised exception. -/
def Report.merge (self other : Report) (strict : Bool) : Report × Option PyErr :=
  match self.kind with
  | .group =>
    let cm := mergeChildrenGo self other.entries strict
    match cm.2 with
    | some e => (cm.1, some e)
    | none =>
      match checkReport cm.1 other with
      | some e => (cm.1, some e)
      | none => (baseMergeLogs cm.1 other, none)
  | .tcase =>
    match checkReport self other with
    | some e => (self, some e)
    | none =>
      ({ self with logs := mergeLogs self.logs other.logs,
                   entries := other.entries }, none)
  | .base =>
    match checkReport self other with
    | some e => (self, some e)
    | none => (baseMergeLogs self other, none)
termination_by (sizeOf other, 1)
decreasing_by
  exact Prod.Lex.left _ _ (sizeOf_entries_lt other)

/-- `ReportGroup.merge_children` (lines 231-243): for each entry of the
incoming report, look its uid up in `self` and merge into the found child;
a missing uid raises `MergeError` (from the dict `KeyError`), leaving the
children already processed merged.  Reading `entry.uid` on a non-report
entry raises `AttributeError`. -/
def mergeChildrenGo (self : Report) (es : List Entry) (strict : Bool) :
    Report × Option PyErr :=
  match es with
  | [] => (self, none)
  | .payload _ _ :: _ => (self, some .attributeError)
  | .node c :: rest =>
    match findChild self.entries c.uid with
    | none => (self, some .mergeError)
    | some t =>
      let m := Report.merge t c strict
      let self' := { self with
        entries := replaceFirstChild self.entries c.uid m.1 }
      match m.2 with
      | some e => (self', some e)
      | none => mergeChildrenGo self' rest strict
termination_by (sizeOf es, 0)
decreasing_by
  all_goals
    first
      | exact Prod.Lex.left _ _ (sizeOf_node_child_lt c rest)
      | (apply Prod.Lex.left; simp [Entry.node.sizeOf_spec]; try omega)

end

/-- `ReportGroup.get_by_uid` (lines 222-229) on the tree model: `none` models
the `KeyError` for a missing uid. -/
def Report.get_by_uid (r : Report) (u : Nat) : Option Report :=
  findChild r.entries u

/-!  ## Flatten (`ReportGroup.flatten`, lines 292-317; `Report.flattened_entries`,
lines 172-179) -/

/-- `Report.flattened_entries`: the node's own entries paired with a constant
depth. -/
def Report.flattened_entries (r : Report) (depth : Nat) : List (Nat × Entry) :=
  r.entries.map (fun e => (depth, e))

mutual

/-- The inner `flat_func` of `ReportGroup.flatten`: the node itself, then for
each entry, a recursive traversal for `ReportGroup` instances, the node plus
its `flattened_entries` at `depth + 2` for other `Report` instances, and
nothing for non-report entries.  Visited reports appear wrapped as
`Entry.node`. -/
def flatFunc (r : Report) (depth : Nat) : List (Nat × Entry) :=
  (depth, Entry.node r) :: flatEntries r.entries depth
termination_by (sizeOf r, 1)
decreasing_by
  exact Prod.Lex.left _ _ (sizeOf_entries_lt r)

/-- The `for entry in rep_obj` loop body of `flat_func`. -/
def flatEntries (es : List Entry) (depth : Nat) : List (Nat × Entry) :=
  match es with
  | [] => []
  | .payload _ _ :: rest => flatEntries rest depth
  | .node c :: rest =>
    (if c.kind = .group then flatFunc c (depth + 1)
     else (depth + 1, Entry.node c) :: Report.flattened_entries c (depth + 2)) ++
    flatEntries rest depth
termination_by (sizeOf es, 0)
decreasing_by
  all_goals
    first
      | exact Prod.Lex.left _ _ (sizeOf_node_child_lt c rest)
      | (apply Prod.Lex.left; simp [Entry.node.sizeOf_spec]; try omega)

end

/-- `flatten(depths=True)`: the `(depth, report)` pairs of the depth-first
traversal. -/
def Report.flatten_depths (r : Report) : List (Nat × Entry) :=
  flatFunc r 0

/-- `flatten(depths=False)` (`list(zip(*flattened))[1]`): the visited objects
without depths. -/
def Report.flatten (r : Report) : List Entry :=
  (flatFunc r 0).map Prod.snd

/-!  ## Filter (`Report.filter`, lines 156-170; `ReportGroup.filter`,
lines 272-290)

`copy.deepcopy` allocates fresh objects; on this model its observable effect
is that every payload receives a fresh object identity.  `shift` stands for
the allocator: a caller picks it larger than every live `objId`. -/

mutual

/-- `copy.deepcopy` on a report: a structurally equal tree whose payload
entries carry fresh object identities. -/
def deepcopy (shift : Nat) (r : Report) : Report :=
  { r with entries := deepcopyEs shift r.entries }
termination_by (sizeOf r, 1)
decreasing_by
  exact Prod.Lex.left _ _ (sizeOf_entries_lt r)

/-- `copy.deepcopy` on an entries list. -/
def deepcopyEs (shift : Nat) (es : List Entry) : List Entry :=
  match es with
  | [] => []
  | .payload i v :: rest => .payload (i + shift) v :: deepcopyEs shift rest
  | .node c :: rest => .node (deepcopy shift c) :: deepcopyEs shift rest
termination_by (sizeOf es, 0)
decreasing_by
  all_goals
    first
      | exact Prod.Lex.left _ _ (sizeOf_node_child_lt c rest)
      | (apply Prod.Lex.left; simp [Entry.node.sizeOf_spec]; try omega)

end

/-- `any(func(e) for func in functions)`: the disjunction of the predicates
at one entry. -/
def anyPred (fs : List (Entry → Bool)) (e : Entry) : Bool :=
  fs.any (fun f => f e)

mutual

/-- The non-copying body shared by `Report.filter` and `ReportGroup.filter`
(the `__copy=False` recursive calls dispatch on the entry's class):
`ReportGroup.filter` keeps an entry when some predicate matches it,
recursively filtering kept report entries; `Report.filter` (base and
`TestCaseReport`) keeps matching entries without recursion. -/
def filterInner (fs : List (Entry → Bool)) (r : Report) : Report :=
  match r.kind with
  | .group => { r with entries := filterEntries fs r.entries }
  | _ => { r with entries := r.entries.filter (anyPred fs) }
termination_by (sizeOf r, 1)
decreasing_by
  exact Prod.Lex.left _ _ (sizeOf_entries_lt r)

/-- The `for entry in report_obj.entries` loop of `ReportGroup.filter`. -/
def filterEntries (fs : List (Entry → Bool)) (es : List Entry) : List Entry :=
  match es with
  | [] => []
  | e :: rest =>
    if anyPred fs e then
      (match e with
       | .node c => Entry.node (filterInner fs c)
       | .payload i v => .payload i v) :: filterEntries fs rest
    else filterEntries fs rest
termination_by (sizeOf es, 0)
decreasing_by
  all_goals
    (apply Prod.Lex.left; simp [Entry.node.sizeOf_spec]; try omega)

end

/-- The entry point `filter(*functions)` with the `__copy` keyword (default
`True`).  A group deep-copies itself and filters the copy's entries
recursively; a leaf deep-copies itself but rebuilds `entries` from the
ORIGINAL report's entries (`self.entries` in line 166-168), so the surviving
entry objects are shared with the original. -/
def Report.filterPy (fs : List (Entry → Bool)) (cpy : Bool) (shift : Nat)
    (r : Report) : Report :=
  match r.kind with
  | .group => filterInner fs (if cpy then deepcopy shift r else r)
  | _ =>
    { (if cpy then deepcopy shift r else r) with
      entries := r.entries.filter (anyPred fs) }

/-!  ## The group's uid index (`ReportGroup.__init__`, `build_index`,
`append`, `extend`, `get_by_uid`; lines 188-270)

The index is a Python dict from child uid to child object.  This part of the
contract concerns a single group's `entries` list and `_index` dict under
construction, `append`, `extend` and `build_index`, so it is modelled as a
flat state; the children's own internals are irrelevant here.  As with
merge, a mutating operation returns its final state paired with the raised
exception, if any; checks precede mutation in the source, so a failed
`append` returns the unchanged state. -/

/-- A Python dict with `Nat` keys in insertion order. -/
abbrev Dict := List (Nat × Report)

/-- `d[k] = v`: replace the value in place if the key exists, else append. -/
def dictInsert (d : Dict) (k : Nat) (v : Report) : Dict :=
  match d with
  | [] => [(k, v)]
  | (k', v') :: rest =>
    if k' = k then (k, v) :: rest else (k', v') :: dictInsert rest k v

/-- `d[k]` as an option (`none` models `KeyError`). -/
def dictLookup (d : Dict) (k : Nat) : Option Report :=
  match d with
  | [] => none
  | (k', v) :: rest => if k' = k then some v else dictLookup rest k

/-- `uid in d` for a dict. -/
def dictContains (d : Dict) (k : Nat) : Bool :=
  (dictLookup d k).isSome

/-- The state of one `ReportGroup` object: its `entries` and its `_index`. -/
structure GroupState where
  entries : List Entry
  index : Dict

/-- The comprehension `[child.uid for child in self]` of `build_index`: it
reads `child.uid` on every entry, raising `AttributeError` at the first
entry that is not a report (opaque payloads have no `uid` attribute). -/
def childUidsE : List Entry → Except PyErr (List Nat)
  | [] => .ok []
  | .payload _ _ :: _ => .error .attributeError
  | .node c :: rest =>
    match childUidsE rest with
    | .error e => .error e
    | .ok ids => .ok (c.uid :: ids)

/-- `ReportGroup.build_index` (non-recursive part, lines 194-215): collect
the child uids (`AttributeError` on a non-report entry), raise `ValueError`
when `collections.Counter` finds a duplicate (a nonempty `dupe_ids` list is
exactly a non-`Nodup` uid list), else rebuild the dict by inserting every
child keyed by its uid. -/
def buildIndexList (es : List Entry) : Except PyErr Dict :=
  match childUidsE es with
  | .error e => .error e
  | .ok ids =>
    if ids.Nodup then
      .ok (es.foldl
        (fun d e =>
          match e with
          | .node c => dictInsert d c.uid c
          | .payload _ _ => d) [])
    else .error .valueError

/-- `build_index` called on an existing group: the index is reassigned only
after the checks pass, so on failure the state is unchanged. -/
def GroupState.build_index (g : GroupState) : GroupState × Option PyErr :=
  match buildIndexList g.entries with
  | .error e => (g, some e)
  | .ok idx => ({ g with index := idx }, none)

/-- `ReportGroup.__init__` (lines 188-192): store the given entries, start
with an empty index and run `build_index`; a raise there aborts
construction. -/
def mkGroup (entries : List Entry) : Except PyErr GroupState :=
  match buildIndexList entries with
  | .error e => .error e
  | .ok idx => .ok ⟨entries, idx⟩

/-- `ReportGroup.append` (lines 250-265): `TypeError` unless the item is a
report, `ValueError` if its uid is already indexed, else record it in the
index and append it to `entries`. -/
def GroupState.append (g : GroupState) (item : Entry) : GroupState × Option PyErr :=
  match item with
  | .payload _ _ => (g, some .typeError)
  | .node r =>
    if dictContains g.index r.uid then (g, some .valueError)
    else (⟨g.entries ++ [.node r], dictInsert g.index r.uid r⟩, none)

/-- `ReportGroup.extend` (lines 267-270): repeated `append`, stopping at the
first raise and keeping the earlier appends. -/
def GroupState.extend (g : GroupState) (items : List Entry) :
    GroupState × Option PyErr :=
  match items with
  | [] => (g, none)
  | it :: rest =>
    let p := g.append it
    match p.2 with
    | some e => (p.1, some e)
    | none => p.1.extend rest

/-- `ReportGroup.get_by_uid` (lines 222-229): dict lookup; `none` models the
`KeyError`. -/
def GroupState.get_by_uid (g : GroupState) (u : Nat) : Option Report :=
  dictLookup g.index u

/-- One mutating call on a group, for stating "after any sequence of
`append` / `extend` / `build_index` calls". -/
inductive GOp : Type where
  | gappend (e : Entry) : GOp
  | gextend (es : List Entry) : GOp
  | grebuild : GOp

/-- Run one operation. -/
def GroupState.applyOp (g : GroupState) : GOp → GroupState × Option PyErr
  | .gappend e => g.append e
  | .gextend es => g.extend es
  | .grebuild => g.build_index

/-- Run a sequence of operations, stopping at the first raise. -/
def applyOps (g : GroupState) : List GOp → GroupState × Option PyErr
  | [] => (g, none)
  | op :: rest =>
    let p := g.applyOp op
    match p.2 with
    | some e => (p.1, some e)
    | none => applyOps p.1 rest

/-- The uids of the report-valued entries of a list. -/
def childUids (es : List Entry) : List Nat :=
  es.filterMap (fun e => match e with | .node c => some c.uid | .payload _ _ => none)

/-- The association of child uid to child over an entries list, in order:
the reference value of a consistent `_index`. -/
def entriesIndex (es : List Entry) : Dict :=
  es.filterMap
    (fun e => match e with
      | .node c => some (c.uid, c)
      | .payload _ _ => none)

/-- Well-formedness of a report tree as produced by the controlled
construction paths: at every group level, the report-valued entries have
pairwise distinct uids (spec §3 invariants; enforced by `build_index` and
`append`). -/
inductive WFB : Report → Prop where
  | mk : ∀ r : Report, (childUids r.entries).Nodup →
      (∀ c : Report, Entry.node c ∈ r.entries → WFB c) → WFB r

/-!  ## Properties of the stateful log-id generator -/

theorem genMember_append_of_found {x : Nat} {G G' : List Nat} (T : List Nat)
    (h : genMember x G = (true, G')) :
    genMember x (G ++ T) = (true, G' ++ T) := by
  induction G generalizing G' with
  | nil => simp [genMember] at h
  | cons y ys ih =>
    by_cases hyx : y = x
    · simp [genMember, hyx] at h ⊢
      exact h
    · simp [genMember, hyx] at h ⊢
      exact ih h

theorem genMember_append_of_not_found {x : Nat} {G : List Nat} (T : List Nat)
    (h : (genMember x G).1 = false) :
    genMember x (G ++ T) = genMember x T := by
  induction G with
  | nil => simp
  | cons y ys ih =>
    by_cases hyx : y = x
    · simp [genMember, hyx] at h
    · simp [genMember, hyx] at h ⊢
      exact ih h

theorem genMember_false_snd {x : Nat} {G : List Nat}
    (h : (genMember x G).1 = false) : (genMember x G).2 = [] := by
  induction G with
  | nil => simp [genMember]
  | cons y ys ih =>
    by_cases hyx : y = x
    · simp [genMember, hyx] at h
    · simp [genMember, hyx] at h ⊢
      exact ih h

/-- An exhausted generator filters nothing: every record is added. -/
theorem mergeLogsAux_nil (R : List LogRec) : mergeLogsAux [] R = R := by
  induction R with
  | nil => rfl
  | cons r rest ih => simp [mergeLogsAux, genMember, ih]

/-- Scanning a generator that lists exactly the uids of `R`, in order, finds
every record of `R`. -/
theorem mergeLogsAux_self (R : List LogRec) :
    mergeLogsAux (R.map LogRec.uid) R = [] := by
  induction R with
  | nil => rfl
  | cons r rest ih => simp [mergeLogsAux, genMember, ih]

/-- Unfolding lemma for `mergeLogsAux` on a cons cell. -/
theorem mergeLogsAux_cons (gen : List Nat) (r : LogRec) (rest : List LogRec) :
    mergeLogsAux gen (r :: rest) =
      if (genMember r.uid gen).1 then mergeLogsAux (genMember r.uid gen).2 rest
      else r :: mergeLogsAux (genMember r.uid gen).2 rest := rfl

/-- Key absorption property: re-filtering `R` against the generator of the
already-merged buffer finds every record, so a second merge of the same
report adds nothing. -/
theorem mergeLogsAux_idem (R : List LogRec) :
    ∀ G : List Nat,
      mergeLogsAux (G ++ (mergeLogsAux G R).map LogRec.uid) R = [] := by
  induction R with
  | nil => intro G; rfl
  | cons r rest ih =>
    intro G
    rcases h : genMember r.uid G with ⟨found, g2⟩
    cases found with
    | true =>
      have h1 : mergeLogsAux G (r :: rest) = mergeLogsAux g2 rest := by
        rw [mergeLogsAux_cons, h]
        simp
      rw [h1]
      have h2 := genMember_append_of_found
        ((mergeLogsAux g2 rest).map LogRec.uid) h
      rw [mergeLogsAux_cons, h2]
      simpa using ih g2
    | false =>
      have hsnd : g2 = [] := by
        have h' : (genMember r.uid G).1 = false := by rw [h]
        have := genMember_false_snd h'
        rw [h] at this
        exact this
      subst hsnd
      have h1 : mergeLogsAux G (r :: rest) = r :: rest := by
        rw [mergeLogsAux_cons, h]
        simp [mergeLogsAux_nil]
      rw [h1]
      have h2 := genMember_append_of_not_found
        (x := r.uid) ((r :: rest).map LogRec.uid) (by rw [h])
      rw [mergeLogsAux_cons, h2]
      have h3 : genMember r.uid (List.map LogRec.uid (r :: rest)) =
          (true, List.map LogRec.uid rest) := by
        simp [genMember]
      rw [h3]
      simp [mergeLogsAux_self]

/-- Merging the same logs twice equals merging them once. -/
theorem mergeLogs_idem (L R : List LogRec) :
    mergeLogs (mergeLogs L R) R = mergeLogs L R := by
  unfold mergeLogs
  rw [List.map_append, List.append_assoc]
  rw [mergeLogsAux_idem R (L.map LogRec.uid)]
  simp

/-!  ## Structural lemmas about `merge_children` and child lookup -/

/-- `merge_children` only mutates `entries`: every other attribute of `self`
is untouched. -/
theorem mergeChildrenGo_preserves (es : List Entry) :
    ∀ (self : Report) (strict : Bool),
      (mergeChildrenGo self es strict).1.kind = self.kind ∧
      (mergeChildrenGo self es strict).1.name = self.name ∧
      (mergeChildrenGo self es strict).1.description = self.description ∧
      (mergeChildrenGo self es strict).1.uid = self.uid ∧
      (mergeChildrenGo self es strict).1.logs = self.logs := by
  induction es with
  | nil => intro self strict; simp [mergeChildrenGo]
  | cons e rest ih =>
    intro self strict
    cases e with
    | payload i v => simp [mergeChildrenGo]
    | node c =>
      cases hf : findChild self.entries c.uid with
      | none => simp [mergeChildrenGo, hf]
      | some t =>
        cases hm : (Report.merge t c strict).2 with
        | none =>
          simp only [mergeChildrenGo, hf, hm]
          exact ih _ strict
        | some e' => simp [mergeChildrenGo, hf, hm]

/-- `merge` never changes the identity or class (or name or description) of
the receiving report, on success or on failure. -/
theorem merge_preserves (self other : Report) (strict : Bool) :
    (Report.merge self other strict).1.kind = self.kind ∧
    (Report.merge self other strict).1.name = self.name ∧
    (Report.merge self other strict).1.description = self.description ∧
    (Report.merge self other strict).1.uid = self.uid := by
  cases hk : self.kind with
  | group =>
    have hp := mergeChildrenGo_preserves other.entries self strict
    cases hcm : (mergeChildrenGo self other.entries strict).2 with
    | some e => simp [Report.merge, hk, hcm]; simp_all
    | none =>
      cases hcr : checkReport (mergeChildrenGo self other.entries strict).1 other with
      | some e => simp [Report.merge, hk, hcm, hcr]; simp_all
      | none => simp [Report.merge, hk, hcm, hcr, baseMergeLogs]; simp_all
  | tcase =>
    cases hcr : checkReport self other with
    | some e => simp [Report.merge, hk, hcr]
    | none => simp [Report.merge, hk, hcr]
  | base =>
    cases hcr : checkReport self other with
    | some e => simp [Report.merge, hk, hcr]
    | none => simp [Report.merge, hk, hcr, baseMergeLogs]

/-- A found child has the uid it was looked up by. -/
theorem findChild_uid {es : List Entry} {u : Nat} {t : Report}
    (h : findChild es u = some t) : t.uid = u := by
  induction es with
  | nil => simp [findChild] at h
  | cons e rest ih =>
    cases e with
    | payload i v => simp [findChild] at h; exact ih h
    | node c =>
      by_cases hc : c.uid = u
      · simp [findChild, hc] at h
        subst h
        exact hc
      · simp [findChild, hc] at h
        exact ih h

/-- After replacing the found child by a report with the same uid, the
lookup returns the replacement. -/
theorem findChild_replaceFirstChild {es : List Entry} {u : Nat} {t : Report}
    {c' : Report} (hcu : c'.uid = u) (h : findChild es u = some t) :
    findChild (replaceFirstChild es u c') u = some c' := by
  induction es with
  | nil => simp [findChild] at h
  | cons e rest ih =>
    cases e with
    | payload i v =>
      simp [findChild] at h
      simp [findChild, replaceFirstChild]
      exact ih h
    | node c =>
      by_cases hc : c.uid = u
      · simp [replaceFirstChild, hc, findChild, hcu]
      · simp [findChild, hc] at h
        simp [replaceFirstChild, hc, findChild]
        exact ih h

/-- Replacing the found child by itself changes nothing. -/
theorem replaceFirstChild_self {es : List Entry} {u : Nat} {c : Report}
    (h : findChild es u = some c) : replaceFirstChild es u c = es := by
  induction es with
  | nil => rfl
  | cons e rest ih =>
    cases e with
    | payload i v =>
      simp [findChild] at h
      simp [replaceFirstChild]
      exact ih h
    | node c0 =>
      by_cases hc : c0.uid = u
      · simp [findChild, hc] at h
        subst h
        simp [replaceFirstChild, hc]
      · simp [findChild, hc] at h
        simp [replaceFirstChild, hc]
        exact ih h

/-- Replacing a child with a different uid does not affect a lookup. -/
theorem findChild_replaceFirstChild_other {es : List Entry} {u v : Nat}
    {c' : Report} (hvu : v ≠ u) (hcu : c'.uid = v) :
    findChild (replaceFirstChild es v c') u = findChild es u := by
  induction es with
  | nil => rfl
  | cons e rest ih =>
    cases e with
    | payload i v0 => simp [replaceFirstChild, findChild, ih]
    | node c0 =>
      by_cases hc : c0.uid = v
      · have : c0.uid ≠ u := by rw [hc]; exact hvu
        simp [replaceFirstChild, hc, findChild, this, hcu, hvu]
      · simp [replaceFirstChild, hc, findChild, ih]

/-- `merge_children` does not move or retag children: a lookup for a uid not
among the merged-in children is unchanged. -/
theorem mergeChildrenGo_findChild_stable (es : List Entry) :
    ∀ (self : Report) (strict : Bool) (u : Nat),
      (∀ c : Report, Entry.node c ∈ es → c.uid ≠ u) →
      findChild (mergeChildrenGo self es strict).1.entries u =
        findChild self.entries u := by
  induction es with
  | nil => intro self strict u _; simp [mergeChildrenGo]
  | cons e rest ih =>
    intro self strict u hu
    cases e with
    | payload i v => simp [mergeChildrenGo]
    | node c =>
      have hcne : c.uid ≠ u := hu c (by simp)
      cases hf : findChild self.entries c.uid with
      | none => simp [mergeChildrenGo, hf]
      | some t =>
        have hmu : (Report.merge t c strict).1.uid = c.uid := by
          rw [(merge_preserves t c strict).2.2.2]
          exact findChild_uid hf
        have hstep :
            findChild (replaceFirstChild self.entries c.uid
              (Report.merge t c strict).1) u = findChild self.entries u :=
          findChild_replaceFirstChild_other hcne hmu
        cases hm : (Report.merge t c strict).2 with
        | some e' => simp [mergeChildrenGo, hf, hm, hstep]
        | none =>
          simp only [mergeChildrenGo, hf, hm]
          rw [ih _ strict u (fun c2 h2 => hu c2 (by simp [h2]))]
          exact hstep

/-!  ## Claim C3: log union on merge -/

/-- A base report with logs whose uids are 1, 2. -/
def c3A : Report := ⟨.base, 0, none, 5, [], [⟨1, 0⟩, ⟨2, 0⟩]⟩

/-- A same-uid base report with logs whose uids are 3, 1: it shares exactly
record uid 1 with `c3A` and holds one unique record uid 3, and the shared
uid comes second. -/
def c3B : Report := ⟨.base, 0, none, 5, [], [⟨3, 0⟩, ⟨1, 9⟩]⟩

/-- Claim C3, at the failing input: merging two same-uid, same-kind reports
whose logs share exactly uid 1 (with one unique uid each) is claimed to
yield exactly the three-record union with every uid once, regardless of
record order; the code instead appends both records of `c3B` — because the
`log_ids` generator was exhausted by the failed test for uid 3, the test for
uid 1 is vacuously false — leaving four records with uid 1 twice. -/
theorem c3_log_union_failure :
    (Report.merge c3A c3B true).2 = none ∧
    (Report.merge c3A c3B true).1.logs =
      [⟨1, 0⟩, ⟨2, 0⟩, ⟨3, 0⟩, ⟨1, 9⟩] ∧
    (Report.merge c3A c3B true).1.logs.length = 4 ∧
    ((Report.merge c3A c3B true).1.logs.map LogRec.uid).count 1 = 2 := by
  refine ⟨?_, ?_, ?_, ?_⟩ <;>
    simp [Report.merge, c3A, c3B, checkReport, baseMergeLogs, mergeLogs,
      mergeLogsAux, genMember, mergeLogsAux_cons, List.count_cons]

/-!  ## Claim C6: flatten order and depths -/

/-- Leaf `leaf1` of the flatten scenario. -/
def c6leaf1 : Report := ⟨.base, 1, none, 11, [], []⟩

/-- Leaf `leaf2` of the flatten scenario. -/
def c6leaf2 : Report := ⟨.base, 2, none, 12, [], []⟩

/-- Leaf `leaf3` of the flatten scenario. -/
def c6leaf3 : Report := ⟨.base, 3, none, 13, [], []⟩

/-- Group `g1 → [leaf1, leaf2]`. -/
def c6g1 : Report := ⟨.group, 4, none, 10, [.node c6leaf1, .node c6leaf2], []⟩

/-- Root `root → [g1, leaf3]`. -/
def c6root : Report := ⟨.group, 5, none, 9, [.node c6g1, .node c6leaf3], []⟩

/-- Claim C6: on the tree `root → [g1 → [leaf1, leaf2], leaf3]` (all leaves
entry-less), `flatten()` visits `[root, g1, leaf1, leaf2, leaf3]` in that
order, and the depth-annotated variant pairs them with `[0, 1, 2, 2, 1]`. -/
theorem c6_flatten_order :
    Report.flatten c6root =
      [.node c6root, .node c6g1, .node c6leaf1, .node c6leaf2, .node c6leaf3] ∧
    Report.flatten_depths c6root =
      [(0, .node c6root), (1, .node c6g1), (2, .node c6leaf1),
       (2, .node c6leaf2), (1, .node c6leaf3)] := by
  constructor <;>
    simp [Report.flatten, Report.flatten_depths, flatFunc, flatEntries,
      Report.flattened_entries, c6root, c6g1, c6leaf1, c6leaf2, c6leaf3]

/-!  ## Claim C2: end-to-end skeleton/partial merge -/

/-- The `entryA` assertion payload of the end-to-end scenario. -/
def c2entryA : Entry := .payload 7 42

/-- The skeleton case `Case{uid=2, entries=[]}`. -/
def c2case : Report := ⟨.tcase, 20, none, 2, [], []⟩

/-- The skeleton suite `Suite{uid=1}` containing the empty case. -/
def c2skeleton : Report := ⟨.group, 10, none, 1, [.node c2case], []⟩

/-- The worker's partial suite: same uids, the case carrying `[entryA]`. -/
def c2worker : Report :=
  ⟨.group, 10, none, 1, [.node ⟨.tcase, 20, none, 2, [c2entryA], []⟩], []⟩

/-- Claim C2: after `skeleton.merge(partial)` the merge has succeeded and
`skeleton.get_by_uid(2)` returns a node whose entries equal `[entryA]`. -/
theorem c2_end_to_end :
    (Report.merge c2skeleton c2worker true).2 = none ∧
    ∃ c : Report,
      (Report.merge c2skeleton c2worker true).1.get_by_uid 2 = some c ∧
      c.entries = [c2entryA] := by
  constructor
  · simp [Report.merge, mergeChildrenGo, c2skeleton, c2worker, c2case,
      checkReport, findChild, replaceFirstChild, baseMergeLogs, mergeLogs,
      mergeLogsAux, genMember]
  · refine ⟨⟨.tcase, 20, none, 2, [c2entryA], []⟩, ?_, rfl⟩
    simp [Report.merge, mergeChildrenGo, c2skeleton, c2worker, c2case,
      checkReport, findChild, replaceFirstChild, baseMergeLogs, mergeLogs,
      mergeLogsAux, genMember, Report.get_by_uid, c2entryA]

/-!  ## Claim C1: identity-mismatch merge never mutates -/

/-- Group `A` with uid 1 and one base child with uid 2 and no logs. -/
def c1A : Report := ⟨.group, 0, none, 1, [.node ⟨.base, 6, none, 2, [], []⟩], []⟩

/-- Group `B` with mismatched uid 99 whose child uid 2 matches `A`'s child
and carries one log record. -/
def c1B : Report :=
  ⟨.group, 0, none, 99, [.node ⟨.base, 6, none, 2, [], [⟨5, 7⟩]⟩], []⟩

/-- Claim C1 is false at this input: `A.merge(B)` with `B.uid != A.uid` does
raise the identity-mismatch `AttributeError`, but `A` is not left unchanged —
`merge_children` runs before `_check_report`, so `A`'s uid-2 child has
already absorbed `B`'s child's log record when the error is raised. -/
theorem c1_counterexample :
    c1B.uid ≠ c1A.uid ∧
    (Report.merge c1A c1B true).2 = some PyErr.attributeError ∧
    (Report.merge c1A c1B true).1 ≠ c1A := by
  refine ⟨by simp [c1A, c1B], ?_, ?_⟩
  · simp [Report.merge, mergeChildrenGo, c1A, c1B, checkReport, findChild,
      replaceFirstChild, baseMergeLogs, mergeLogs, mergeLogsAux, genMember,
      mergeLogsAux_cons]
  · intro h
    have h2 := congrArg (fun r => Report.get_by_uid r 2) h
    simp [Report.merge, mergeChildrenGo, c1A, c1B, checkReport, findChild,
      replaceFirstChild, baseMergeLogs, mergeLogs, mergeLogsAux, genMember,
      mergeLogsAux_cons, Report.get_by_uid] at h2

/-- Claim C1 amended: for a group `A` and a report `B` with `B.uid != A.uid`
whose children all merge cleanly into `A`'s children, `A.merge(B)` fails
with the identity-mismatch error and leaves `A`'s own uid, name, description
and logs unchanged — but only after `merge_children` has run, so the final
state of `A` is the (possibly mutated) result of merging `B`'s children into
`A`'s children, not the original `A`. -/
theorem c1_merge_identity_mismatch (A B : Report) (strict : Bool)
    (hk : A.kind = .group) (hu : B.uid ≠ A.uid)
    (hc : (mergeChildrenGo A B.entries strict).2 = none) :
    Report.merge A B strict =
      ((mergeChildrenGo A B.entries strict).1, some .attributeError) ∧
    (mergeChildrenGo A B.entries strict).1.logs = A.logs ∧
    (mergeChildrenGo A B.entries strict).1.uid = A.uid ∧
    (mergeChildrenGo A B.entries strict).1.name = A.name ∧
    (mergeChildrenGo A B.entries strict).1.description = A.description := by
  have hp := mergeChildrenGo_preserves B.entries A strict
  have hcr : checkReport (mergeChildrenGo A B.entries strict).1 B =
      some .attributeError := by
    unfold checkReport
    rw [hp.2.2.2.1, if_pos hu]
  refine ⟨?_, hp.2.2.2.2, hp.2.2.2.1, hp.2.1, hp.2.2.1⟩
  simp [Report.merge, hk, hc, hcr]

/-- Witness group `A` for the amended C1. -/
def c1wA : Report := ⟨.group, 0, none, 1, [], []⟩

/-- Witness group `B` (mismatched uid, no children) for the amended C1. -/
def c1wB : Report := ⟨.group, 0, none, 2, [], []⟩

/-- Witness: the amended C1 applied to a concrete childless pair. -/
theorem c1_witness :
    c1wA.kind = .group ∧ c1wB.uid ≠ c1wA.uid ∧
    (mergeChildrenGo c1wA c1wB.entries true).2 = none ∧
    (Report.merge c1wA c1wB true =
      ((mergeChildrenGo c1wA c1wB.entries true).1, some .attributeError) ∧
     (mergeChildrenGo c1wA c1wB.entries true).1.logs = c1wA.logs ∧
     (mergeChildrenGo c1wA c1wB.entries true).1.uid = c1wA.uid ∧
     (mergeChildrenGo c1wA c1wB.entries true).1.name = c1wA.name ∧
     (mergeChildrenGo c1wA c1wB.entries true).1.description =
       c1wA.description) :=
  ⟨rfl, by simp [c1wA, c1wB], by simp [mergeChildrenGo, c1wB],
   c1_merge_identity_mismatch c1wA c1wB true rfl (by simp [c1wA, c1wB])
     (by simp [mergeChildrenGo, c1wB])⟩

/-!  ## Claim C4: idempotence of merge -/

/-- Structure eta for a no-op entries update. -/
theorem withEntries_self (r : Report) :
    ({ r with entries := r.entries } : Report) = r := rfl

/-- A successful `_check_report` is exactly uid and class agreement. -/
theorem checkReport_none_iff (s o : Report) :
    checkReport s o = none ↔ o.uid = s.uid ∧ o.kind = s.kind := by
  unfold checkReport
  by_cases h1 : o.uid = s.uid <;> by_cases h2 : o.kind = s.kind <;>
    simp [h1, h2]

/-- Unfolding `childUids` over a report entry. -/
theorem childUids_cons_node (c : Report) (rest : List Entry) :
    childUids (.node c :: rest) = c.uid :: childUids rest := by
  simp [childUids]

/-- Unfolding `childUids` over a payload entry. -/
theorem childUids_cons_payload (i v : Nat) (rest : List Entry) :
    childUids (.payload i v :: rest) = childUids rest := by
  simp [childUids]

/-- Membership in the node-uid list of an entries list. -/
theorem mem_childUids {es : List Entry} {c : Report}
    (h : Entry.node c ∈ es) : c.uid ∈ childUids es := by
  induction es with
  | nil => simp at h
  | cons e rest ih =>
    rw [List.mem_cons] at h
    rcases h with h | h
    · subst h
      simp [childUids_cons_node]
    · cases e with
      | payload i v =>
        rw [childUids_cons_payload]
        exact ih h
      | node c0 =>
        rw [childUids_cons_node, List.mem_cons]
        exact Or.inr (ih h)

/-- Structure eta for a no-op logs update. -/
theorem withLogs_self (r : Report) :
    ({ r with logs := r.logs } : Report) = r := rfl

/-- Structure eta for a no-op logs-and-entries update. -/
theorem withLogsEntries_self (r : Report) :
    ({ r with logs := r.logs, entries := r.entries } : Report) = r := rfl

/-- Inversion for tree well-formedness. -/
theorem WFB_inv {r : Report} (h : WFB r) :
    (childUids r.entries).Nodup ∧
    ∀ c : Report, Entry.node c ∈ r.entries → WFB c := by
  cases h with
  | mk r h1 h2 => exact ⟨h1, h2⟩

/-- The combined induction behind idempotence: a clean merge is absorbed
(part 1 over whole reports, part 2 over the children of a group), by strong
induction on the size of the merged-in structure. -/
theorem merge_idem_aux : ∀ n : Nat,
    (∀ B : Report, sizeOf B ≤ n → ∀ (A : Report) (strict : Bool), WFB B →
      (Report.merge A B strict).2 = none →
      Report.merge (Report.merge A B strict).1 B strict =
        ((Report.merge A B strict).1, none)) ∧
    (∀ es : List Entry, sizeOf es ≤ n →
      (childUids es).Nodup → (∀ c : Report, Entry.node c ∈ es → WFB c) →
      ∀ (self self2 : Report) (strict : Bool),
        (mergeChildrenGo self es strict).2 = none →
        self2.entries = (mergeChildrenGo self es strict).1.entries →
        mergeChildrenGo self2 es strict = (self2, none)) := by
  intro n
  induction n using Nat.strong_induction_on with
  | _ n ih =>
  constructor
  · -- Part 1: a whole-report clean merge is absorbed.
    intro B hB A strict hwf hok
    have hXk := (merge_preserves A B strict).1
    have hXu := (merge_preserves A B strict).2.2.2
    cases hk : A.kind with
    | group =>
      rcases hcm : (mergeChildrenGo A B.entries strict).2 with _ | e
      · rcases hcr : checkReport (mergeChildrenGo A B.entries strict).1 B
          with _ | e
        · have hmerge : Report.merge A B strict =
              (baseMergeLogs (mergeChildrenGo A B.entries strict).1 B, none) := by
            simp [Report.merge, hk, hcm, hcr]
          have hXe : (Report.merge A B strict).1.entries =
              (mergeChildrenGo A B.entries strict).1.entries := by
            rw [hmerge]; simp [baseMergeLogs]
          have hXl : (Report.merge A B strict).1.logs =
              mergeLogs (mergeChildrenGo A B.entries strict).1.logs B.logs := by
            rw [hmerge]; simp [baseMergeLogs]
          have hXk2 : (Report.merge A B strict).1.kind = Kind.group := by
            rw [hXk, hk]
          obtain ⟨hwfd, hwfc⟩ := WFB_inv hwf
          have hsz : sizeOf B.entries < n :=
            lt_of_lt_of_le (sizeOf_entries_lt B) hB
          have hmc2 : mergeChildrenGo (Report.merge A B strict).1
              B.entries strict = ((Report.merge A B strict).1, none) :=
            (ih (sizeOf B.entries) hsz).2 B.entries (le_refl _) hwfd hwfc
              A _ strict hcm hXe
          have hcr1 := (checkReport_none_iff _ B).mp hcr
          have hcrp := mergeChildrenGo_preserves B.entries A strict
          have hcr2 : checkReport (Report.merge A B strict).1 B = none := by
            refine (checkReport_none_iff _ B).mpr ⟨?_, ?_⟩
            · rw [hXu, hcr1.1, hcrp.2.2.2.1]
            · rw [hXk, hcr1.2, hcrp.1]
          generalize hg : (Report.merge A B strict).1 = X
            at hXe hXl hXk2 hmc2 hcr2 ⊢
          have hfin : Report.merge X B strict = (baseMergeLogs X B, none) := by
            simp [Report.merge, hXk2, hmc2, hcr2]
          rw [hfin]
          unfold baseMergeLogs
          rw [hXl, mergeLogs_idem, ← hXl, withLogs_self]
        · simp [Report.merge, hk, hcm, hcr] at hok
      · simp [Report.merge, hk, hcm] at hok
    | tcase =>
      rcases hcr : checkReport A B with _ | e
      · have hXe : (Report.merge A B strict).1.entries = B.entries := by
          simp [Report.merge, hk, hcr]
        have hXl : (Report.merge A B strict).1.logs =
            mergeLogs A.logs B.logs := by
          simp [Report.merge, hk, hcr]
        have hXk2 : (Report.merge A B strict).1.kind = Kind.tcase := by
          rw [hXk, hk]
        have hcr1 := (checkReport_none_iff A B).mp hcr
        have hcr2 : checkReport (Report.merge A B strict).1 B = none := by
          refine (checkReport_none_iff _ B).mpr ⟨?_, ?_⟩
          · rw [hXu, hcr1.1]
          · rw [hXk, hcr1.2]
        generalize hg : (Report.merge A B strict).1 = X
          at hXe hXl hXk2 hcr2 ⊢
        have hfin : Report.merge X B strict =
            ({ X with logs := mergeLogs X.logs B.logs,
                      entries := B.entries }, none) := by
          simp [Report.merge, hXk2, hcr2]
        rw [hfin, hXl, mergeLogs_idem, ← hXl, ← hXe, withLogsEntries_self]
      · simp [Report.merge, hk, hcr] at hok
    | base =>
      rcases hcr : checkReport A B with _ | e
      · have hXl : (Report.merge A B strict).1.logs =
            mergeLogs A.logs B.logs := by
          simp [Report.merge, hk, hcr, baseMergeLogs]
        have hXk2 : (Report.merge A B strict).1.kind = Kind.base := by
          rw [hXk, hk]
        have hcr1 := (checkReport_none_iff A B).mp hcr
        have hcr2 : checkReport (Report.merge A B strict).1 B = none := by
          refine (checkReport_none_iff _ B).mpr ⟨?_, ?_⟩
          · rw [hXu, hcr1.1]
          · rw [hXk, hcr1.2]
        generalize hg : (Report.merge A B strict).1 = X
          at hXl hXk2 hcr2 ⊢
        have hfin : Report.merge X B strict = (baseMergeLogs X B, none) := by
          simp [Report.merge, hXk2, hcr2]
        rw [hfin]
        unfold baseMergeLogs
        rw [hXl, mergeLogs_idem, ← hXl, withLogs_self]
      · simp [Report.merge, hk, hcr] at hok
  · -- Part 2: re-running `merge_children` over the merged entries fixes them.
    intro es hes hnd hwfc self self2 strict h1 h2
    induction es generalizing self self2 with
    | nil =>
      simp [mergeChildrenGo] at h2
      simp [mergeChildrenGo]
    | cons e rest ihes =>
      cases e with
      | payload i v => simp [mergeChildrenGo] at h1
      | node c =>
        rcases hf : findChild self.entries c.uid with _ | t
        · simp [mergeChildrenGo, hf] at h1
        · rcases hm : (Report.merge t c strict).2 with _ | e'
          · set M := (Report.merge t c strict).1 with hM
            have hstep : mergeChildrenGo self (Entry.node c :: rest) strict =
                mergeChildrenGo
                  { self with entries :=
                      replaceFirstChild self.entries c.uid M } rest strict := by
              simp [mergeChildrenGo, hf, hm]
            rw [hstep] at h1 h2
            have htu : t.uid = c.uid := findChild_uid hf
            have hmu : M.uid = c.uid := by
              rw [hM, (merge_preserves t c strict).2.2.2, htu]
            rw [childUids_cons_node, List.nodup_cons] at hnd
            have hrest_ne : ∀ c2 : Report, Entry.node c2 ∈ rest →
                c2.uid ≠ c.uid := by
              intro c2 h2m heq
              exact hnd.1 (heq ▸ mem_childUids h2m)
            have hstable : findChild (mergeChildrenGo
                { self with entries :=
                    replaceFirstChild self.entries c.uid M } rest
                strict).1.entries c.uid =
                findChild (replaceFirstChild self.entries c.uid M) c.uid := by
              have := mergeChildrenGo_findChild_stable rest
                { self with entries :=
                    replaceFirstChild self.entries c.uid M } strict
                c.uid hrest_ne
              simpa using this
            have hf2 : findChild self2.entries c.uid = some M := by
              rw [h2, hstable]
              exact findChild_replaceFirstChild hmu hf
            have hszc : sizeOf c < n := by
              simp only [List.cons.sizeOf_spec, Entry.node.sizeOf_spec] at hes
              omega
            have hcidem : Report.merge M c strict = (M, none) :=
              (ih (sizeOf c) hszc).1 c (le_refl _) t strict
                (hwfc c (by simp)) hm
            have hrepl : replaceFirstChild self2.entries c.uid M =
                self2.entries :=
              replaceFirstChild_self hf2
            have hwfc' : ∀ c2 : Report, Entry.node c2 ∈ rest → WFB c2 :=
              fun c2 hmem => hwfc c2 (by simp [hmem])
            have hes' : sizeOf rest ≤ n := by
              simp only [List.cons.sizeOf_spec, Entry.node.sizeOf_spec] at hes
              omega
            have hrec : mergeChildrenGo self2 rest strict = (self2, none) :=
              ihes hes' hnd.2 hwfc' _ self2 h1 h2
            simp [mergeChildrenGo, hf2, hcidem, hrepl, withEntries_self, hrec]
          · simp [mergeChildrenGo, hf, hm] at h1

/-- Claim C4: merge is idempotent — for every node `A` and compatible
well-formed partial `B` (the merge succeeds; `B`'s groups have distinct
child uids, as every report built through the controlled paths does),
merging `B` into `A` a second time returns exactly the state after the
first merge, bit for bit, and again succeeds. -/
theorem c4_merge_idempotent (A B : Report) (strict : Bool) (hwf : WFB B)
    (hok : (Report.merge A B strict).2 = none) :
    Report.merge (Report.merge A B strict).1 B strict =
      ((Report.merge A B strict).1, none) :=
  (merge_idem_aux (sizeOf B)).1 B (le_refl _) A strict hwf hok

/-- Witness skeleton for idempotence. -/
def c4A : Report := ⟨.group, 0, none, 1, [.node ⟨.base, 2, none, 2, [], [⟨1, 0⟩]⟩], []⟩

/-- Witness partial report for idempotence. -/
def c4B : Report := ⟨.group, 0, none, 1, [.node ⟨.base, 2, none, 2, [], [⟨2, 3⟩]⟩], []⟩

/-- Witness: idempotence applied at a concrete group pair whose first merge
succeeds. -/
theorem c4_witness :
    WFB c4B ∧ (Report.merge c4A c4B true).2 = none ∧
    Report.merge (Report.merge c4A c4B true).1 c4B true =
      ((Report.merge c4A c4B true).1, none) := by
  have hchild : WFB ⟨.base, 2, none, 2, [], [⟨2, 3⟩]⟩ :=
    WFB.mk _ (by simp [childUids]) (by intro c hc; simp at hc)
  have hwf : WFB c4B := by
    refine WFB.mk _ (by simp [c4B, childUids]) ?_
    intro c hc
    simp [c4B] at hc
    rw [hc]
    exact hchild
  have hok : (Report.merge c4A c4B true).2 = none := by
    simp [Report.merge, mergeChildrenGo, c4A, c4B, checkReport, findChild,
      replaceFirstChild, baseMergeLogs, mergeLogs, mergeLogsAux, genMember,
      mergeLogsAux_cons]
  exact ⟨hwf, hok, c4_merge_idempotent c4A c4B true hwf hok⟩

/-!  ## Claim C5: filtering with predicates that match nothing -/

/-- With predicates that match no entry, the filtering loop keeps nothing. -/
theorem filterEntries_none {fs : List (Entry → Bool)}
    (h : ∀ e : Entry, anyPred fs e = false) (es : List Entry) :
    filterEntries fs es = [] := by
  induction es with
  | nil => rw [filterEntries]
  | cons e rest ih =>
    rw [filterEntries.eq_def]
    simp [h e, ih]

/-- `deepcopy` changes only the object identities inside `entries`. -/
theorem deepcopy_preserves (shift : Nat) (r : Report) :
    (deepcopy shift r).kind = r.kind ∧ (deepcopy shift r).name = r.name ∧
    (deepcopy shift r).uid = r.uid := by
  simp [deepcopy]

/-- Claim C5 amended: filtering a group tree with predicates that match no
entry yields a tree with the same root uid and name and EMPTY `entries`:
every non-matching entry — nested group nodes included — is removed from its
parent's entries; empty group shells are not preserved. -/
theorem c5_filter_no_match (fs : List (Entry → Bool)) (shift : Nat)
    (r : Report) (hk : r.kind = .group)
    (h : ∀ e : Entry, anyPred fs e = false) :
    (Report.filterPy fs true shift r).uid = r.uid ∧
    (Report.filterPy fs true shift r).name = r.name ∧
    (Report.filterPy fs true shift r).entries = [] := by
  have hdk : (deepcopy shift r).kind = Kind.group := by
    rw [(deepcopy_preserves shift r).1, hk]
  refine ⟨?_, ?_, ?_⟩ <;>
    simp [Report.filterPy, hk, filterInner, hdk, filterEntries_none h, deepcopy]

/-- Grandchild leaf of the C5 scenario tree. -/
def c5leaf : Report := ⟨.base, 2, none, 2, [], []⟩

/-- Nested group child of the C5 scenario tree. -/
def c5g1 : Report := ⟨.group, 1, none, 1, [.node c5leaf], []⟩

/-- Root of the C5 scenario tree: `root → [g1 → [leaf]]`. -/
def c5root : Report := ⟨.group, 0, none, 0, [.node c5g1], []⟩

/-- A predicate set matching no entry at any level. -/
def c5preds : List (Entry → Bool) := [fun _ => false]

/-- Claim C5 is false at this input: the root has the nested group child
`g1`, yet filtering with a nothing-matching predicate set returns a root
with NO entries at all — `g1` is deleted from its parent's entries, not
preserved as an empty shell. -/
theorem c5_counterexample :
    Entry.node c5g1 ∈ c5root.entries ∧ c5g1.kind = .group ∧
    (Report.filterPy c5preds true 100 c5root).entries = [] ∧
    ¬ ∃ c' : Report,
        Entry.node c' ∈ (Report.filterPy c5preds true 100 c5root).entries ∧
        c'.uid = c5g1.uid ∧ c'.entries = [] := by
  refine ⟨by simp [c5root], rfl, ?_, ?_⟩
  · simp [Report.filterPy, filterInner, filterEntries, deepcopy, deepcopyEs,
      c5root, c5g1, c5leaf, c5preds, anyPred]
  · rintro ⟨c', hmem, -, -⟩
    simp [Report.filterPy, filterInner, filterEntries, deepcopy, deepcopyEs,
      c5root, c5g1, c5leaf, c5preds, anyPred] at hmem

/-- Witness: the amended C5 applied at the concrete scenario tree. -/
theorem c5_witness :
    c5root.kind = .group ∧ (∀ e : Entry, anyPred c5preds e = false) ∧
    ((Report.filterPy c5preds true 100 c5root).uid = c5root.uid ∧
     (Report.filterPy c5preds true 100 c5root).name = c5root.name ∧
     (Report.filterPy c5preds true 100 c5root).entries = []) := by
  have h : ∀ e : Entry, anyPred c5preds e = false := by
    intro e
    simp [anyPred, c5preds]
  exact ⟨rfl, h, c5_filter_no_match c5preds 100 c5root rfl h⟩

/-!  ## Claim C9: filter with copy shares the kept entry objects -/

/-- The report of the C9 scenario: one opaque payload entry with object
identity 0. -/
def c9R : Report := ⟨.base, 0, none, 3, [.payload 0 42], [⟨1, 1⟩]⟩

/-- An always-true predicate set. -/
def c9preds : List (Entry → Bool) := [fun _ => true]

/-- Claim C9 is false at this input: the entry kept by
`filter(..., copy=True)` on a leaf report is the ORIGINAL payload object
(identity 0) — `report_obj.entries` is rebuilt from `self.entries`, not from
the deep copy — so the result shares an entry object with `R`. -/
theorem c9_counterexample :
    ¬ (∀ e ∈ (Report.filterPy c9preds true 100 c9R).entries,
        ∀ e' ∈ c9R.entries, e ≠ e') := by
  intro h
  have h1 : Entry.payload 0 42 ∈ (Report.filterPy c9preds true 100 c9R).entries := by
    simp [Report.filterPy, c9R, c9preds, anyPred, deepcopy, deepcopyEs]
  exact h _ h1 (Entry.payload 0 42) (by simp [c9R]) rfl

/-- Claim C9 amended: on a leaf report, `filter(*predicates, copy=True)`
returns a report equal to the original except that `entries` is restricted
to exactly those ORIGINAL entry objects for which at least one predicate
returns true (logical OR) — the kept entries are shared with `R`, not
copied (the deep copy's freshly allocated entries are discarded when
`entries` is reassigned); the original report is left unchanged. -/
theorem c9_filter_shares_entries (fs : List (Entry → Bool)) (shift : Nat)
    (r : Report) (hk : r.kind ≠ .group) :
    Report.filterPy fs true shift r =
      { r with entries := r.entries.filter (anyPred fs) } := by
  cases hkind : r.kind with
  | group => exact absurd hkind hk
  | tcase => simp [Report.filterPy, hkind, deepcopy]
  | base => simp [Report.filterPy, hkind, deepcopy]

/-- Witness: the amended C9 applied at the concrete leaf report. -/
theorem c9_witness :
    c9R.kind ≠ .group ∧
    Report.filterPy c9preds true 100 c9R =
      { c9R with entries := c9R.entries.filter (anyPred c9preds) } :=
  ⟨by simp [c9R], c9_filter_shares_entries c9preds 100 c9R (by simp [c9R])⟩

/-!  ## Index consistency (claims C7, C8, C10) -/

/-- Inserting a key absent from a dict appends it at the end. -/
theorem dictInsert_absent {d : Dict} {k : Nat} (v : Report)
    (h : dictLookup d k = none) : dictInsert d k v = d ++ [(k, v)] := by
  induction d with
  | nil => rfl
  | cons kv rest ih =>
    by_cases hk : kv.1 = k
    · simp [dictLookup, hk] at h
    · simp [dictLookup, hk] at h
      simp [dictInsert, hk, ih h]

/-- Appending a binding with a different key does not affect a lookup. -/
theorem dictLookup_append_single {d : Dict} {k k' : Nat} (v : Report)
    (h : dictLookup d k' = none) (hne : k ≠ k') :
    dictLookup (d ++ [(k, v)]) k' = none := by
  induction d with
  | nil => simp [dictLookup, hne]
  | cons kv rest ih =>
    by_cases hk : kv.1 = k'
    · simp [dictLookup, hk] at h
    · simp [dictLookup, hk] at h ⊢
      exact ih h

/-- `childUids` distributes over append. -/
theorem childUids_append (a b : List Entry) :
    childUids (a ++ b) = childUids a ++ childUids b := by
  simp [childUids]

/-- `entriesIndex` distributes over append. -/
theorem entriesIndex_append (a b : List Entry) :
    entriesIndex (a ++ b) = entriesIndex a ++ entriesIndex b := by
  simp [entriesIndex]

/-- `entriesIndex` over a report entry. -/
theorem entriesIndex_cons_node (c : Report) (rest : List Entry) :
    entriesIndex (.node c :: rest) = (c.uid, c) :: entriesIndex rest := by
  simp [entriesIndex]

/-- A successful uid scan means every entry is a report and the scanned uids
are exactly the child uids. -/
theorem childUidsE_ok {es : List Entry} {ids : List Nat}
    (h : childUidsE es = .ok ids) :
    (∀ e ∈ es, ∃ c : Report, e = .node c) ∧ ids = childUids es := by
  induction es generalizing ids with
  | nil =>
    simp [childUidsE] at h
    simp [childUids, ← h]
  | cons e rest ih =>
    cases e with
    | payload i v => simp [childUidsE] at h
    | node c =>
      cases hr : childUidsE rest with
      | error e' => simp [childUidsE, hr] at h
      | ok ids' =>
        simp [childUidsE, hr] at h
        obtain ⟨h1, h2⟩ := ih hr
        constructor
        · intro e he
          rcases List.mem_cons.mp he with he | he
          · exact ⟨c, he⟩
          · exact h1 e he
        · rw [← h, childUids_cons_node, h2]

/-- A uid scan over a list containing an opaque payload raises
`AttributeError`. -/
theorem childUidsE_payload {es : List Entry} {i v : Nat}
    (h : Entry.payload i v ∈ es) :
    childUidsE es = .error .attributeError := by
  induction es with
  | nil => simp at h
  | cons e rest ih =>
    cases e with
    | payload i' v' => simp [childUidsE]
    | node c =>
      rcases List.mem_cons.mp h with he | he
      · exact absurd he (by simp)
      · simp [childUidsE, ih he]

/-- The fold of dict insertions over all-report entries with fresh distinct
uids appends the bindings in order. -/
theorem foldl_dictInsert (es : List Entry) :
    ∀ d : Dict,
      (∀ k ∈ childUids es, dictLookup d k = none) →
      (childUids es).Nodup →
      es.foldl
        (fun d e =>
          match e with
          | .node c => dictInsert d c.uid c
          | .payload _ _ => d) d = d ++ entriesIndex es := by
  induction es with
  | nil => intro d _ _; simp [entriesIndex]
  | cons e rest ih =>
    intro d hfresh hnd
    cases e with
    | payload i v =>
      rw [childUids_cons_payload] at hfresh hnd
      simp only [List.foldl_cons]
      rw [ih d hfresh hnd]
      simp [entriesIndex]
    | node c =>
      rw [childUids_cons_node] at hfresh hnd
      rw [List.nodup_cons] at hnd
      have hc : dictLookup d c.uid = none := hfresh c.uid (by simp)
      simp only [List.foldl_cons]
      rw [dictInsert_absent c hc]
      rw [ih (d ++ [(c.uid, c)]) ?_ hnd.2]
      · rw [entriesIndex_cons_node, List.append_assoc]
        simp
      · intro k hk
        refine dictLookup_append_single c ?_ ?_
        · exact hfresh k (by simp [hk])
        · intro he
          exact hnd.1 (he ▸ hk)

/-- Consistency of a group state: all entries are reports with pairwise
distinct uids and the index is exactly the uid-to-child association of
`entries`, in order. -/
def GInv (g : GroupState) : Prop :=
  (∀ e ∈ g.entries, ∃ c : Report, e = .node c) ∧
  (childUids g.entries).Nodup ∧
  g.index = entriesIndex g.entries

/-- What a successful `build_index` computation guarantees. -/
theorem buildIndexList_ok {es : List Entry} {idx : Dict}
    (h : buildIndexList es = .ok idx) :
    (∀ e ∈ es, ∃ c : Report, e = .node c) ∧
    (childUids es).Nodup ∧ idx = entriesIndex es := by
  unfold buildIndexList at h
  cases hu : childUidsE es with
  | error e => rw [hu] at h; simp at h
  | ok ids =>
    rw [hu] at h
    obtain ⟨h1, h2⟩ := childUidsE_ok hu
    subst h2
    by_cases hnd : (childUids es).Nodup
    · simp [hnd] at h
      refine ⟨h1, hnd, ?_⟩
      rw [foldl_dictInsert es [] (by intro k _; rfl) hnd] at h
      simpa using h.symm
    · simp [hnd] at h

/-- A fresh group construction establishes consistency. -/
theorem mkGroup_GInv {es : List Entry} {g : GroupState}
    (h : mkGroup es = .ok g) : GInv g ∧ g.entries = es := by
  unfold mkGroup at h
  cases hb : buildIndexList es with
  | error e => rw [hb] at h; simp at h
  | ok idx =>
    rw [hb] at h
    simp at h
    obtain ⟨h1, h2, h3⟩ := buildIndexList_ok hb
    rw [← h]
    exact ⟨⟨h1, h2, h3⟩, rfl⟩

/-- `childUids` of no entries. -/
theorem childUids_nil : childUids [] = [] := rfl

/-- `entriesIndex` ignores payload entries. -/
theorem entriesIndex_cons_payload (i v : Nat) (rest : List Entry) :
    entriesIndex (.payload i v :: rest) = entriesIndex rest := by
  simp [entriesIndex]

/-- A uid absent from the reference index is absent from the child uids. -/
theorem dictLookup_entriesIndex_none {es : List Entry} {k : Nat}
    (h : dictLookup (entriesIndex es) k = none) : k ∉ childUids es := by
  induction es with
  | nil => simp [childUids]
  | cons e rest ih =>
    cases e with
    | payload i v =>
      rw [entriesIndex_cons_payload] at h
      rw [childUids_cons_payload]
      exact ih h
    | node c =>
      rw [entriesIndex_cons_node] at h
      rw [childUids_cons_node]
      by_cases hc : c.uid = k
      · simp [dictLookup, hc] at h
      · simp [dictLookup, hc] at h
        simp only [List.mem_cons, not_or]
        exact ⟨fun he => hc he.symm, ih h⟩

/-- A successful `append` preserves consistency. -/
theorem append_GInv {g g' : GroupState} {item : Entry}
    (hinv : GInv g) (h : g.append item = (g', none)) : GInv g' := by
  obtain ⟨hnodes, hnd, hidx⟩ := hinv
  cases item with
  | payload i v => simp [GroupState.append] at h
  | node r =>
    by_cases hc : dictContains g.index r.uid
    · simp [GroupState.append, hc] at h
    · simp [GroupState.append, hc] at h
      have hlook : dictLookup g.index r.uid = none := by
        unfold dictContains at hc
        cases hl : dictLookup g.index r.uid with
        | none => rfl
        | some v => rw [hl] at hc; simp at hc
      rw [hidx] at hlook
      have hfresh : r.uid ∉ childUids g.entries :=
        dictLookup_entriesIndex_none hlook
      rw [← h]
      refine ⟨?_, ?_, ?_⟩
      · intro e he
        rcases List.mem_append.mp he with he | he
        · exact hnodes e he
        · exact ⟨r, by simpa using he⟩
      · rw [childUids_append, childUids_cons_node, childUids_nil,
          List.nodup_append]
        refine ⟨hnd, by simp, ?_⟩
        intro a ha hb
        simp at hb
        exact hfresh (hb ▸ ha)
      · rw [hidx, dictInsert_absent r hlook, entriesIndex_append,
          entriesIndex_cons_node]
        simp [entriesIndex]

/-- A successful `extend` preserves consistency. -/
theorem extend_GInv {items : List Entry} :
    ∀ {g g' : GroupState}, GInv g → g.extend items = (g', none) → GInv g' := by
  induction items with
  | nil =>
    intro g g' hinv h
    simp [GroupState.extend] at h
    rw [← h]
    exact hinv
  | cons it rest ih =>
    intro g g' hinv h
    rw [GroupState.extend] at h
    cases ha : (g.append it).2 with
    | some e => rw [ha] at h; simp at h
    | none =>
      rw [ha] at h
      simp at h
      have hap : g.append it = ((g.append it).1, none) := by
        rw [Prod.ext_iff]
        exact ⟨rfl, ha⟩
      exact ih (append_GInv hinv hap) h

/-- A successful explicit `build_index` (re)establishes consistency. -/
theorem build_index_GInv {g g' : GroupState}
    (h : g.build_index = (g', none)) : GInv g' := by
  unfold GroupState.build_index at h
  cases hb : buildIndexList g.entries with
  | error e => rw [hb] at h; simp at h
  | ok idx =>
    rw [hb] at h
    simp at h
    obtain ⟨h1, h2, h3⟩ := buildIndexList_ok hb
    rw [← h]
    exact ⟨h1, h2, h3⟩

/-- Any successful sequence of mutating calls preserves consistency. -/
theorem applyOps_GInv {ops : List GOp} :
    ∀ {g : GroupState}, GInv g → (applyOps g ops).2 = none →
      GInv (applyOps g ops).1 := by
  induction ops with
  | nil => intro g hinv _; simpa [applyOps] using hinv
  | cons op rest ih =>
    intro g hinv h
    rw [applyOps] at h ⊢
    cases ha : (g.applyOp op).2 with
    | some e =>
      rw [ha] at h
      exact Option.noConfusion (show (some e : Option PyErr) = none from h)
    | none =>
      rw [ha] at h
      have h' : (applyOps (g.applyOp op).1 rest).2 = none := h
      have hop : g.applyOp op = ((g.applyOp op).1, none) := by
        rw [Prod.ext_iff]
        exact ⟨rfl, ha⟩
      have hinv' : GInv (g.applyOp op).1 := by
        cases op with
        | gappend e => exact append_GInv hinv hop
        | gextend es => exact extend_GInv hinv hop
        | grebuild => exact build_index_GInv hop
      show GInv (applyOps (g.applyOp op).1 rest).1
      exact ih hinv' h'

/-- On a consistent state, the index lookup of a child's uid returns exactly
that child. -/
theorem dictLookup_entriesIndex_mem {es : List Entry} {c : Report}
    (hnd : (childUids es).Nodup) (h : Entry.node c ∈ es) :
    dictLookup (entriesIndex es) c.uid = some c := by
  induction es with
  | nil => simp at h
  | cons e rest ih =>
    cases e with
    | payload i v =>
      rw [childUids_cons_payload] at hnd
      rcases List.mem_cons.mp h with he | he
      · exact absurd he (by simp)
      · rw [entriesIndex_cons_payload]
        exact ih hnd he
    | node c0 =>
      rw [childUids_cons_node, List.nodup_cons] at hnd
      rcases List.mem_cons.mp h with he | he
      · have : c0 = c := by injection he.symm
        subst this
        simp [entriesIndex_cons_node, dictLookup]
      · have hne : c0.uid ≠ c.uid := by
          intro heq
          exact hnd.1 (heq ▸ mem_childUids he)
        rw [entriesIndex_cons_node]
        simp [dictLookup, hne]
        exact ih hnd.2 he

/-- Every index binding of a consistent state points at a child that is in
`entries` under exactly that uid. -/
theorem mem_entriesIndex {es : List Entry} {k : Nat} {r : Report}
    (h : (k, r) ∈ entriesIndex es) :
    Entry.node r ∈ es ∧ r.uid = k := by
  induction es with
  | nil => simp [entriesIndex] at h
  | cons e rest ih =>
    cases e with
    | payload i v =>
      rw [entriesIndex_cons_payload] at h
      obtain ⟨h1, h2⟩ := ih h
      exact ⟨by simp [h1], h2⟩
    | node c =>
      rw [entriesIndex_cons_node] at h
      rcases List.mem_cons.mp h with he | he
      · have h1 : k = c.uid := by injection he
        have h2 : r = c := by injection he
        subst h1
        subst h2
        simp
      · obtain ⟨h1, h2⟩ := ih he
        exact ⟨by simp [h1], h2⟩

/-- Claim C8: starting from a freshly constructed group, after any
successful sequence of `append` / `extend` / `build_index` calls, every
child is returned by `get_by_uid` of its uid, and every index binding points
at a child currently in `entries` under exactly that uid. -/
theorem c8_index_consistency (es0 : List Entry) (g0 : GroupState)
    (ops : List GOp) (h0 : mkGroup es0 = .ok g0)
    (hok : (applyOps g0 ops).2 = none) :
    (∀ c : Report, Entry.node c ∈ (applyOps g0 ops).1.entries →
      GroupState.get_by_uid (applyOps g0 ops).1 c.uid = some c) ∧
    (∀ (k : Nat) (r : Report), (k, r) ∈ (applyOps g0 ops).1.index →
      Entry.node r ∈ (applyOps g0 ops).1.entries ∧ r.uid = k) := by
  obtain ⟨hn, hnd, hidx⟩ := applyOps_GInv (mkGroup_GInv h0).1 hok
  constructor
  · intro c hc
    unfold GroupState.get_by_uid
    rw [hidx]
    exact dictLookup_entriesIndex_mem hnd hc
  · intro k r hkr
    rw [hidx] at hkr
    exact mem_entriesIndex hkr

/-- Witness child 1 for index consistency. -/
def c8r1 : Report := ⟨.base, 1, none, 1, [], []⟩

/-- Witness child 2 for index consistency. -/
def c8r2 : Report := ⟨.base, 2, none, 2, [], []⟩

/-- Witness operation sequence: an append, an extend and a rebuild. -/
def c8ops : List GOp := [.gappend (.node c8r1), .gextend [.node c8r2], .grebuild]

/-- Witness: index consistency applied after a concrete successful
append/extend/build_index sequence on a freshly built empty group. -/
theorem c8_witness :
    mkGroup [] = .ok (⟨[], []⟩ : GroupState) ∧
    (applyOps ⟨[], []⟩ c8ops).2 = none ∧
    ((∀ c : Report, Entry.node c ∈ (applyOps ⟨[], []⟩ c8ops).1.entries →
      GroupState.get_by_uid (applyOps ⟨[], []⟩ c8ops).1 c.uid = some c) ∧
     (∀ (k : Nat) (r : Report), (k, r) ∈ (applyOps ⟨[], []⟩ c8ops).1.index →
      Entry.node r ∈ (applyOps ⟨[], []⟩ c8ops).1.entries ∧ r.uid = k)) := by
  have h0 : mkGroup [] = .ok (⟨[], []⟩ : GroupState) := rfl
  have hok : (applyOps ⟨[], []⟩ c8ops).2 = none := rfl
  exact ⟨h0, hok, c8_index_consistency [] ⟨[], []⟩ c8ops h0 hok⟩

/-- Claim C7: appending a child whose uid is already indexed fails with the
duplicate-identity `ValueError` and returns the group state exactly as it
was (the checks precede every mutation); and constructing a group whose
initial entries carry duplicate child uids fails at construction time with
the same `ValueError`. -/
theorem c7_duplicate_rejection :
    (∀ (g : GroupState) (c : Report), dictContains g.index c.uid = true →
      GroupState.append g (.node c) = (g, some .valueError)) ∧
    (∀ (es : List Entry) (ids : List Nat), childUidsE es = .ok ids →
      ¬ ids.Nodup → mkGroup es = .error .valueError) := by
  constructor
  · intro g c h
    simp [GroupState.append, h]
  · intro es ids h hnd
    obtain ⟨-, h2⟩ := childUidsE_ok h
    subst h2
    have hb : buildIndexList es = .error .valueError := by
      unfold buildIndexList
      rw [h]
      simp [hnd]
    unfold mkGroup
    rw [hb]

/-- Witness child for duplicate rejection. -/
def c7r : Report := ⟨.base, 5, none, 2, [], []⟩

/-- A second report with the same uid 2. -/
def c7r2 : Report := ⟨.base, 6, none, 2, [], []⟩

/-- A group already holding uid 2. -/
def c7g : GroupState := ⟨[.node c7r], [(2, c7r)]⟩

/-- Witness: duplicate rejection applied at a concrete duplicate append and
at a concrete duplicate construction. -/
theorem c7_witness :
    dictContains c7g.index c7r2.uid = true ∧
    GroupState.append c7g (.node c7r2) = (c7g, some .valueError) ∧
    childUidsE [.node c7r, .node c7r2] = .ok [2, 2] ∧
    ¬ ([2, 2] : List Nat).Nodup ∧
    mkGroup [.node c7r, .node c7r2] = .error .valueError := by
  have h1 : dictContains c7g.index c7r2.uid = true := rfl
  have h2 : childUidsE [.node c7r, .node c7r2] = .ok [2, 2] := rfl
  have h3 : ¬ ([2, 2] : List Nat).Nodup := by decide
  exact ⟨h1, c7_duplicate_rejection.1 c7g c7r2 h1, h2, h3,
    c7_duplicate_rejection.2 _ _ h2 h3⟩

/-- Claim C10 is false at this input: constructing a group whose initial
entries hold an opaque payload does fail — but with the `AttributeError`
raised by `build_index` reading `child.uid`, not with a type error as the
claim states (only `append`/`extend` raise `TypeError`). -/
theorem c10_counterexample :
    mkGroup [Entry.payload 0 0] = .error .attributeError ∧
    PyErr.attributeError ≠ PyErr.typeError := ⟨rfl, by decide⟩

/-- Claim C10 amended: `append` (and hence `extend`) rejects a non-report
item with `TypeError`; construction with a non-report initial entry also
fails, but with the `AttributeError` from the index build reading the
missing `uid` attribute; consequently no reachable group (a fresh
construction followed by any successful `append`/`extend`/`build_index`
sequence) ever holds an opaque payload in its entries. -/
theorem c10_entries_are_reports :
    (∀ (g : GroupState) (i v : Nat),
      GroupState.append g (.payload i v) = (g, some .typeError)) ∧
    (∀ es : List Entry, (∃ i v : Nat, Entry.payload i v ∈ es) →
      mkGroup es = .error .attributeError) ∧
    (∀ (es0 : List Entry) (g0 : GroupState) (ops : List GOp),
      mkGroup es0 = .ok g0 → (applyOps g0 ops).2 = none →
      ∀ e ∈ (applyOps g0 ops).1.entries, ∃ c : Report, e = .node c) := by
  refine ⟨?_, ?_, ?_⟩
  · intro g i v
    simp [GroupState.append]
  · rintro es ⟨i, v, hmem⟩
    have hb : buildIndexList es = .error .attributeError := by
      unfold buildIndexList
      rw [childUidsE_payload hmem]
    unfold mkGroup
    rw [hb]
  · intro es0 g0 ops h0 hok
    exact (applyOps_GInv (mkGroup_GInv h0).1 hok).1

/-- An empty group state for the C10 witness. -/
def c10g : GroupState := ⟨[], []⟩

/-- A report child for the C10 witness. -/
def c10r : Report := ⟨.base, 0, none, 1, [], []⟩

/-- Witness: the amended C10 applied at a concrete payload append, a
concrete payload-containing construction, and a concrete reachable group. -/
theorem c10_witness :
    GroupState.append c10g (.payload 3 4) = (c10g, some .typeError) ∧
    (∃ i v : Nat, Entry.payload i v ∈ [Entry.node c10r, Entry.payload 0 0]) ∧
    mkGroup [Entry.node c10r, Entry.payload 0 0] = .error .attributeError ∧
    mkGroup [Entry.node c10r] =
      .ok (⟨[Entry.node c10r], [(1, c10r)]⟩ : GroupState) ∧
    (applyOps ⟨[Entry.node c10r], [(1, c10r)]⟩ []).2 = none ∧
    ∀ e ∈ (applyOps ⟨[Entry.node c10r], [(1, c10r)]⟩ []).1.entries,
      ∃ c : Report, e = .node c := by
  have hex : ∃ i v : Nat,
      Entry.payload i v ∈ [Entry.node c10r, Entry.payload 0 0] :=
    ⟨0, 0, by simp⟩
  have h0 : mkGroup [Entry.node c10r] =
      .ok (⟨[Entry.node c10r], [(1, c10r)]⟩ : GroupState) := rfl
  have hok : (applyOps (⟨[Entry.node c10r], [(1, c10r)]⟩ : GroupState) []).2 =
      none := rfl
  exact ⟨c10_entries_are_reports.1 c10g 3 4, hex,
    c10_entries_are_reports.2.1 _ hex, h0, hok,
    c10_entries_are_reports.2.2 _ _ [] h0 hok⟩
